import Mathlib

/-!
Verification development for the Yarn Spinner dialogue runtime.

The definitions below are shallow embeddings of the Rust sources:
* `crates/compiler/src/input_manager.rs` (string table manager),
* `crates/bevy_plugin/src/dialogue_runner.rs` (dialogue runner facade),
* `crates/bevy_plugin/src/localization/strings_file/creation.rs`
  (strings-file generation),
* `crates/bevy_plugin/src/localization/line_id_generation.rs` (line-id injector),
* `crates/core/src/yarn_fn/function_wrapping.rs` (typed function binding).

Rust `HashMap`s are embedded as association lists with key-replacing
insertion, `usize` as `Nat`, and fallible operations return their final
state together with an `Except` result, mirroring `&mut self` methods
that may return `Err` after partial mutation.
-/

namespace Yarn

/-- One decimal digit as a character; `digitChar d` is the character Rust's
`Display` for `usize` emits for the digit value `d < 10`. -/
def digitChar (d : Nat) : Char := Char.ofNat (48 + d)

/-- Core of the decimal printer: most-significant-first digit emission with an
explicit fuel bound so the recursion is structural. -/
def natDecCore : Nat → Nat → List Char → List Char
  | 0, _, acc => acc
  | fuel + 1, n, acc =>
    if n < 10 then digitChar (n % 10) :: acc
    else natDecCore fuel (n / 10) (digitChar (n % 10) :: acc)

/-- Decimal rendering of a natural number: the embedding of Rust's
`format!("{}", n)` for a `usize` value `n`. -/
def natDec (n : Nat) : String := ⟨natDecCore (n + 1) n []⟩

theorem natDecCore_acc (fuel : Nat) : ∀ (n : Nat) (acc : List Char),
    natDecCore fuel n acc = natDecCore fuel n [] ++ acc := by
  induction fuel with
  | zero => intro n acc; rfl
  | succ fuel ih =>
    intro n acc
    by_cases h : n < 10
    · simp [natDecCore, h]
    · simp only [natDecCore, if_neg h]
      rw [ih (n / 10) (digitChar (n % 10) :: acc), ih (n / 10) [digitChar (n % 10)],
        List.append_assoc]
      rfl

/-- The digit-value reading of a character list, big-endian. -/
def decVal (l : List Char) : Nat := l.foldl (fun a c => 10 * a + (c.toNat - 48)) 0

theorem decVal_append_one (l : List Char) (c : Char) :
    decVal (l ++ [c]) = 10 * decVal l + (c.toNat - 48) := by
  simp only [decVal, List.foldl_append, List.foldl_cons, List.foldl_nil]

theorem toNat_digitChar (d : Nat) (hd : d < 10) : (digitChar d).toNat = 48 + d := by
  interval_cases d <;> decide

theorem decVal_natDecCore (fuel : Nat) : ∀ n : Nat, n < 10 ^ fuel →
    decVal (natDecCore fuel n []) = n := by
  induction fuel with
  | zero =>
    intro n hn
    simp only [pow_zero, Nat.lt_one_iff] at hn
    subst hn
    rfl
  | succ fuel ih =>
    intro n hn
    by_cases h : n < 10
    · simp only [natDecCore, if_pos h, decVal, List.foldl_cons, List.foldl_nil]
      rw [toNat_digitChar (n % 10) (Nat.mod_lt _ (by norm_num))]
      omega
    · simp only [natDecCore, if_neg h]
      rw [natDecCore_acc, decVal_append_one,
        toNat_digitChar (n % 10) (Nat.mod_lt _ (by norm_num))]
      have hpow : n < 10 * 10 ^ fuel := by
        rw [← pow_succ']; exact hn
      have hdiv : n / 10 < 10 ^ fuel := Nat.div_lt_of_lt_mul hpow
      rw [ih (n / 10) hdiv]
      omega

theorem lt_ten_pow_succ (n : Nat) : n < 10 ^ (n + 1) :=
  lt_of_lt_of_le (Nat.lt_pow_self (by norm_num) n)
    (Nat.pow_le_pow_right (by norm_num) (Nat.le_succ n))

theorem decVal_natDec (n : Nat) : decVal (natDec n).data = n :=
  decVal_natDecCore (n + 1) n (lt_ten_pow_succ n)

theorem natDec_injective : Function.Injective natDec := by
  intro k m h
  have hd : (natDec k).data = (natDec m).data := congrArg String.data h
  have := decVal_natDec k
  rw [hd, decVal_natDec m] at this
  exact this.symm

theorem natDecCore_mem (fuel : Nat) : ∀ n acc c, c ∈ natDecCore fuel n acc →
    c ∈ acc ∨ ∃ d, d < 10 ∧ c = digitChar d := by
  induction fuel with
  | zero => intro n acc c hc; exact Or.inl hc
  | succ fuel ih =>
    intro n acc c hc
    by_cases h : n < 10
    · simp only [natDecCore, if_pos h, List.mem_cons] at hc
      rcases hc with hc | hc
      · exact Or.inr ⟨n % 10, Nat.mod_lt _ (by norm_num), hc⟩
      · exact Or.inl hc
    · simp only [natDecCore, if_neg h] at hc
      rcases ih (n / 10) (digitChar (n % 10) :: acc) c hc with hc' | hc'
      · rcases List.mem_cons.mp hc' with hc'' | hc''
        · exact Or.inr ⟨n % 10, Nat.mod_lt _ (by norm_num), hc''⟩
        · exact Or.inl hc''
      · exact Or.inr hc'

theorem dash_not_mem_natDec (n : Nat) : '-' ∉ (natDec n).data := by
  intro hmem
  rcases natDecCore_mem (n + 1) n [] _ hmem with h | ⟨d, hd, h⟩
  · simp at h
  · have h45 : ('-').toNat = 45 := by decide
    have hdig := toNat_digitChar d hd
    rw [h, hdig] at h45
    omega

/-- The suffix of a character list after its last dash; used to read the
ordinal component back off a synthesized line id. -/
def afterLastDash (l : List Char) : List Char :=
  l.foldl (fun acc c => if c = '-' then [] else acc ++ [c]) []

theorem foldl_afterLastDash_no_dash (d : List Char)
    (hd : '-' ∉ d) : ∀ acc : List Char,
    d.foldl (fun acc c => if c = '-' then [] else acc ++ [c]) acc = acc ++ d := by
  induction d with
  | nil => intro acc; simp
  | cons c d ih =>
    intro acc
    have hc : c ≠ '-' := fun h => hd (h ▸ List.mem_cons_self c d)
    have hd' : '-' ∉ d := fun h => hd (List.mem_cons_of_mem c h)
    simp only [List.foldl_cons, if_neg hc]
    rw [ih hd' (acc ++ [c]), List.append_assoc]
    rfl

theorem afterLastDash_append (a d : List Char) (hd : '-' ∉ d) :
    afterLastDash (a ++ '-' :: d) = d := by
  unfold afterLastDash
  rw [List.foldl_append, List.foldl_cons, if_pos rfl,
    foldl_afterLastDash_no_dash d hd []]
  rfl

/-- Line metadata, the embedding of `StringInfo` from the compiler's output
module (fields as used by `input_manager.rs` and `creation.rs`). -/
structure StringInfo where
  text : String
  node_name : String
  file_name : String
  line_number : Nat
  is_implicit_tag : Bool
  metadata : List String
deriving DecidableEq

/-- A string table: the embedding of `HashMap<String, StringInfo>` as an
association list with unique keys. -/
abbrev StringTable : Type := List (String × StringInfo)

/-- Whether the table has an entry with key `k`; embeds `HashMap::contains_key`. -/
def hmContains (t : StringTable) (k : String) : Bool :=
  t.any (fun p => p.1 = k)

/-- Key-replacing insertion, the embedding of `HashMap::insert`: an existing
key has its value replaced in place, a new key is appended. -/
def hmInsert : StringTable → String → StringInfo → StringTable
  | [], k, v => [(k, v)]
  | p :: t, k, v => if p.1 = k then (k, v) :: t else p :: hmInsert t k v

/-- Lookup, the embedding of `HashMap::get`. -/
def hmFind : StringTable → String → Option StringInfo
  | [], _ => none
  | p :: t, k => if p.1 = k then some p.2 else hmFind t k

/-- Number of entries, the embedding of `HashMap::len`. -/
def hmLen (t : StringTable) : Nat := t.length

/-- The id synthesized for an insertion without a caller-supplied id:
`format!("line:{}-{}-{}", file_name, node_name, len)` in
`StringTableManager::insert`. -/
def mkImplicitId (file node : String) (n : Nat) : String :=
  "line:" ++ file ++ "-" ++ node ++ "-" ++ natDec n

/-- The embedding of `StringTableManager::insert` from
`crates/compiler/src/input_manager.rs`: with a caller-supplied id the entry is
stored non-implicit under that id; without one, an id of shape
`line:<file>-<node>-<len>` is synthesized and the entry is stored implicit. -/
def stmInsert (t : StringTable) (line_id : Option String) (string_info : StringInfo) :
    StringTable :=
  match line_id with
  | some line_id =>
    hmInsert t line_id { string_info with is_implicit_tag := false }
  | none =>
    let line_id := mkImplicitId string_info.file_name string_info.node_name (hmLen t)
    hmInsert t line_id { string_info with is_implicit_tag := true }

theorem hmFind_hmInsert_same (t : StringTable) (k : String) (v : StringInfo) :
    hmFind (hmInsert t k v) k = some v := by
  induction t with
  | nil => simp [hmInsert, hmFind]
  | cons p t ih =>
    by_cases hp : p.1 = k
    · simp [hmInsert, hmFind, hp]
    · simp [hmInsert, hmFind, hp, ih]

theorem hmLen_hmInsert_of_contains (t : StringTable) (k : String) (v : StringInfo)
    (h : hmContains t k = true) : hmLen (hmInsert t k v) = hmLen t := by
  induction t with
  | nil => simp [hmContains] at h
  | cons p t ih =>
    by_cases hp : p.1 = k
    · simp [hmInsert, hmLen, hp]
    · simp only [hmContains, List.any_cons, Bool.or_eq_true, decide_eq_true_eq] at h
      rcases h with h | h
      · exact absurd h hp
      · simp only [hmInsert, if_neg hp, hmLen, List.length_cons]
        have := ih h
        simp only [hmLen] at this
        omega

theorem hmLen_hmInsert_of_not_contains (t : StringTable) (k : String) (v : StringInfo)
    (h : hmContains t k = false) : hmLen (hmInsert t k v) = hmLen t + 1 := by
  induction t with
  | nil => rfl
  | cons p t ih =>
    simp only [hmContains, List.any_cons, Bool.or_eq_false_iff, decide_eq_false_iff_not] at h
    simp only [hmInsert, if_neg h.1, hmLen, List.length_cons]
    have := ih (by simpa [hmContains] using h.2)
    simp only [hmLen] at this
    omega

/-- Claim C1 helper: the data of a synthesized id decomposes around its final
dash, whose suffix is the printed ordinal. -/
theorem mkImplicitId_data (file node : String) (n : Nat) :
    (mkImplicitId file node n).data
      = ("line:" ++ file ++ "-" ++ node).data ++ '-' :: (natDec n).data := by
  simp [mkImplicitId, String.data_append]

theorem mkImplicitId_ord_inj {f1 n1 f2 n2 : String} {k m : Nat}
    (h : mkImplicitId f1 n1 k = mkImplicitId f2 n2 m) : k = m := by
  have hd := congrArg String.data h
  rw [mkImplicitId_data, mkImplicitId_data] at hd
  have h1 := afterLastDash_append ("line:" ++ f1 ++ "-" ++ n1).data (natDec k).data
    (dash_not_mem_natDec k)
  have h2 := afterLastDash_append ("line:" ++ f2 ++ "-" ++ n2).data (natDec m).data
    (dash_not_mem_natDec m)
  rw [hd] at h1
  rw [h1] at h2
  exact natDec_injective (String.ext h2)

theorem hmContains_eq_false_iff (t : StringTable) (k : String) :
    hmContains t k = false ↔ k ∉ t.map Prod.fst := by
  induction t with
  | nil => simp [hmContains]
  | cons p t ih =>
    simp only [hmContains, List.any_cons, Bool.or_eq_false_iff, decide_eq_false_iff_not,
      List.map_cons, List.mem_cons, not_or] at *
    constructor
    · intro h
      exact ⟨fun he => h.1 he.symm, ih.mp h.2⟩
    · intro h
      exact ⟨fun he => h.1 he.symm, ih.mpr h.2⟩

theorem hmInsert_of_not_contains (t : StringTable) (k : String) (v : StringInfo)
    (h : hmContains t k = false) : hmInsert t k v = t ++ [(k, v)] := by
  induction t with
  | nil => rfl
  | cons p t ih =>
    simp only [hmContains, List.any_cons, Bool.or_eq_false_iff,
      decide_eq_false_iff_not] at h
    simp only [hmInsert, if_neg h.1, List.cons_append]
    rw [ih (by simpa [hmContains] using h.2)]

/-- A table built from the empty table by insertions that all omit the
caller-supplied id (the all-implicit usage pattern of
`StringTableManager::insert`). -/
def implicitChain (sis : List StringInfo) : StringTable :=
  sis.foldl (fun t si => stmInsert t none si) []

/-- Every key of the table is a synthesized id whose ordinal is below the
current table size. -/
def ordinalBounded (t : StringTable) : Prop :=
  ∀ p ∈ t, ∃ f nd j, j < hmLen t ∧ p.1 = mkImplicitId f nd j

theorem fresh_of_ordinalBounded (t : StringTable) (h : ordinalBounded t)
    (f nd : String) : hmContains t (mkImplicitId f nd (hmLen t)) = false := by
  rw [hmContains_eq_false_iff]
  intro hk
  rcases List.mem_map.mp hk with ⟨p, hp, hpk⟩
  rcases h p hp with ⟨f', nd', j, hj, hpk'⟩
  rw [hpk'] at hpk
  have := mkImplicitId_ord_inj hpk
  omega

theorem implicitChain_inv (sis : List StringInfo) :
    ordinalBounded (implicitChain sis) ∧ ((implicitChain sis).map Prod.fst).Nodup := by
  unfold implicitChain
  suffices h : ∀ t : StringTable, ordinalBounded t → (t.map Prod.fst).Nodup →
      ordinalBounded (sis.foldl (fun t si => stmInsert t none si) t)
        ∧ ((sis.foldl (fun t si => stmInsert t none si) t).map Prod.fst).Nodup by
    exact h [] (fun p hp => absurd hp (List.not_mem_nil p)) List.nodup_nil
  induction sis with
  | nil => intro t h1 h2; exact ⟨h1, h2⟩
  | cons si sis ih =>
    intro t h1 h2
    simp only [List.foldl_cons]
    have hfresh := fresh_of_ordinalBounded t h1 si.file_name si.node_name
    have hins : stmInsert t none si
        = t ++ [(mkImplicitId si.file_name si.node_name (hmLen t),
            { si with is_implicit_tag := true })] :=
      hmInsert_of_not_contains t _ _ hfresh
    apply ih
    · intro p hp
      rw [hins] at hp
      have hlen : hmLen (stmInsert t none si) = hmLen t + 1 := by
        rw [hins]
        simp [hmLen]
      rcases List.mem_append.mp hp with hp' | hp'
      · rcases h1 p hp' with ⟨f, nd, j, hj, hpk⟩
        exact ⟨f, nd, j, by omega, hpk⟩
      · rcases List.mem_singleton.mp hp' with rfl
        exact ⟨si.file_name, si.node_name, hmLen t, by omega, rfl⟩
    · rw [hins, List.map_append, List.map_singleton]
      rw [List.nodup_append]
      refine ⟨h2, List.nodup_singleton _, ?_⟩
      intro a ha hb
      rcases List.mem_singleton.mp hb with rfl
      exact (hmContains_eq_false_iff t _).mp hfresh ha

/-- A line as used in the spec's end-to-end implicit-id scenario: file
`a.yarn`, node `Start`. -/
def exampleLine (txt : String) (ln : Nat) : StringInfo :=
  { text := txt, node_name := "Start", file_name := "a.yarn", line_number := ln,
    is_implicit_tag := false, metadata := [] }

/-- Three untagged insertions from file `a.yarn`, node `Start` into the empty
table, in order. -/
def threeInserts : StringTable :=
  stmInsert (stmInsert (stmInsert [] none (exampleLine "l1" 1))
    none (exampleLine "l2" 2)) none (exampleLine "l3" 3)

/-- C1: an insertion without a caller-supplied id stores the entry under the
synthesized id `line:<file>-<node>-<n>` (with `n` the table size at insertion
time) and marks it implicit; an insertion with a caller-supplied id stores it
under that id marked non-implicit; and the three-line scenario from file
`a.yarn`, node `Start` yields ids `line:a.yarn-Start-0`, `line:a.yarn-Start-1`,
`line:a.yarn-Start-2`, all implicit. -/
theorem C1_implicit_id_shape_and_flags (t : StringTable) (si : StringInfo) :
    (hmFind (stmInsert t none si)
        (mkImplicitId si.file_name si.node_name (hmLen t))
      = some { si with is_implicit_tag := true })
    ∧ (∀ id : String, hmFind (stmInsert t (some id) si) id
      = some { si with is_implicit_tag := false })
    ∧ threeInserts.map Prod.fst
      = ["line:a.yarn-Start-0", "line:a.yarn-Start-1", "line:a.yarn-Start-2"]
    ∧ threeInserts.all (fun p => p.2.is_implicit_tag) = true := by
  refine ⟨hmFind_hmInsert_same t _ _, fun id => hmFind_hmInsert_same t _ _, ?_, ?_⟩
  · decide
  · decide

/-- C2 counterexample: after inserting an entry under the caller-supplied id
`line:a.yarn-Start-1`, an id-less insertion from file `a.yarn`, node `Start`
synthesizes that very id (the table size is 1) and overwrites the existing
entry: the table does not grow and the stored entry changes. -/
theorem C2_counterexample :
    hmLen (stmInsert (stmInsert [] (some "line:a.yarn-Start-1") (exampleLine "first" 1))
        none (exampleLine "second" 2))
      = hmLen (stmInsert [] (some "line:a.yarn-Start-1") (exampleLine "first" 1))
    ∧ hmFind (stmInsert (stmInsert [] (some "line:a.yarn-Start-1") (exampleLine "first" 1))
        none (exampleLine "second" 2)) "line:a.yarn-Start-1"
      ≠ hmFind (stmInsert [] (some "line:a.yarn-Start-1") (exampleLine "first" 1))
        "line:a.yarn-Start-1" := by
  constructor
  · decide
  · decide

/-- C2 (amended): in a table built exclusively from insertions without
caller-supplied ids, the next id-less insertion synthesizes an id that is not
yet a key of the table (so nothing is overwritten and the table grows by one),
and no two entries of such a table share a LineId. The restriction to
implicit-only tables is forced: mixing in a caller-supplied id of the shape
`line:<file>-<node>-<n>` makes a later id-less insertion overwrite it. -/
theorem C2_implicit_ids_fresh (sis : List StringInfo) (si : StringInfo) :
    hmContains (implicitChain sis)
        (mkImplicitId si.file_name si.node_name (hmLen (implicitChain sis))) = false
    ∧ hmLen (stmInsert (implicitChain sis) none si) = hmLen (implicitChain sis) + 1
    ∧ ((implicitChain sis).map Prod.fst).Nodup := by
  rcases implicitChain_inv sis with ⟨h1, h2⟩
  have hfresh := fresh_of_ordinalBounded (implicitChain sis) h1 si.file_name si.node_name
  refine ⟨hfresh, ?_, h2⟩
  exact hmLen_hmInsert_of_not_contains _ _ _ hfresh

/-- C3 counterexample: a second insertion with the already-used
caller-supplied id `line:duplicate` is not rejected; it silently replaces the
prior entry, leaving a one-entry table holding the second value. -/
theorem C3_counterexample :
    stmInsert (stmInsert [] (some "line:duplicate") (exampleLine "first" 1))
        (some "line:duplicate") (exampleLine "second" 2)
      = [("line:duplicate", { exampleLine "second" 2 with is_implicit_tag := false })] := by
  decide

/-- C3 (amended): inserting with a caller-supplied id that equals the id of an
existing entry is not an error: `StringTableManager::insert` silently replaces
the prior entry (last write wins) and the table size is unchanged. -/
theorem C3_duplicate_explicit_id_replaces (t : StringTable) (id : String)
    (si : StringInfo) (h : hmContains t id = true) :
    hmFind (stmInsert t (some id) si) id = some { si with is_implicit_tag := false }
    ∧ hmLen (stmInsert t (some id) si) = hmLen t := by
  exact ⟨hmFind_hmInsert_same t _ _, hmLen_hmInsert_of_contains t _ _ h⟩

theorem C3_duplicate_explicit_id_replaces_witness :
    hmFind (stmInsert [("line:duplicate", exampleLine "first" 1)] (some "line:duplicate")
        (exampleLine "second" 2)) "line:duplicate"
      = some { exampleLine "second" 2 with is_implicit_tag := false }
    ∧ hmLen (stmInsert [("line:duplicate", exampleLine "first" 1)] (some "line:duplicate")
        (exampleLine "second" 2))
      = hmLen [("line:duplicate", exampleLine "first" 1)] :=
  C3_duplicate_explicit_id_replaces [("line:duplicate", exampleLine "first" 1)]
    "line:duplicate" (exampleLine "second" 2) (by decide)

/-- Whether an `Except` result is an error. -/
def isErr {ε α : Type} : Except ε α → Bool
  | Except.error _ => true
  | Except.ok _ => false

/-- VM execution states, from the spec's VM State model. -/
inductive ExecutionState
  | Stopped
  | Running
  | WaitingOnOptionSelection
  | WaitingOnLine
  | WaitingOnCommand
  | DeliveringContent
deriving DecidableEq

/-- Modelled from the spec: the `Dialogue` type of the core crate is not under
`src/`; only the state observed by `DialogueRunner` is modelled, following the
spec's VM State record. -/
structure Dialogue where
  execution_state : ExecutionState
  nodes : List String
  current_node : Option String
  current_options : List Nat
  selected_option_index : Option Nat
deriving DecidableEq

/-- Modelled from the spec: `Dialogue::set_selected_option` is not under
`src/`. Per the spec, selecting an option outside `WaitingOnOptionSelection`
or selecting an unknown option is a recoverable error with the VM state
unchanged; on success the VM returns to `Running`. The result pairs the final
dialogue state with the `Result`. -/
def Dialogue.setSelectedOption (d : Dialogue) (option : Nat) :
    Dialogue × Except String Unit :=
  if d.execution_state ≠ ExecutionState.WaitingOnOptionSelection then
    (d, Except.error "Dialogue is not currently waiting for an option selection")
  else if ¬ d.current_options.contains option then
    (d, Except.error "Unknown option")
  else
    ({ d with
        execution_state := ExecutionState.Running
        current_options := []
        selected_option_index := some option }, Except.ok ())

/-- Modelled from the spec: `Dialogue::set_node` is not under `src/`. An
unknown node is a recoverable error with the VM state unchanged. -/
def Dialogue.setNode (d : Dialogue) (node_name : String) :
    Dialogue × Except String Unit :=
  if d.nodes.contains node_name then
    ({ d with current_node := some node_name }, Except.ok ())
  else (d, Except.error "Unknown node")

/-- The text provider as observed by the runner: only its line-availability
report is relevant (`TextProvider::are_lines_available`). -/
structure TextProvider where
  lines_available : Bool
deriving DecidableEq

/-- An asset provider as observed by the runner: only its asset-availability
report is relevant (`AssetProvider::are_assets_available`). -/
structure AssetProvider where
  assets_available : Bool
deriving DecidableEq

/-- The embedding of the `DialogueRunner` component from
`crates/bevy_plugin/src/dialogue_runner.rs` (fields observed by the claims). -/
structure DialogueRunner where
  dialogue : Dialogue
  text_provider : TextProvider
  asset_providers : List AssetProvider
  will_continue_in_next_update : Bool
  last_selected_option : Option Nat
  is_running : Bool
  run_selected_options_as_lines : Bool
  just_started : Bool
  popped_line_hints : Option (List String)
deriving DecidableEq

/-- The embedding of `DialogueRunner::try_continue_in_next_update`: bails if
the dialogue is not running, otherwise sets the one-shot continuation flag.
The pair returns the final runner state together with the `Result`. -/
def tryContinueInNextUpdate (r : DialogueRunner) : DialogueRunner × Except String Unit :=
  if ¬ r.is_running then
    (r, Except.error "Cannot continue dialogue that is not running")
  else ({ r with will_continue_in_next_update := true }, Except.ok ())

/-- The embedding of `DialogueRunner::continue_in_next_update`, which unwraps
`try_continue_in_next_update` and panics on error; on every path on which it
returns, its state is the first component of the pair. -/
def continueInNextUpdate (r : DialogueRunner) : DialogueRunner :=
  (tryContinueInNextUpdate r).1

/-- The embedding of `DialogueRunner::select_option`: bails if not running;
otherwise records the option in `last_selected_option`, forwards it to the
dialogue (propagating its error with `?` after that mutation), and schedules a
continue. -/
def selectOption (r : DialogueRunner) (option : Nat) : DialogueRunner × Except String Unit :=
  if ¬ r.is_running then
    (r, Except.error "Cannot select option: the dialogue is currently not running")
  else
    let r1 := { r with last_selected_option := some option }
    match r1.dialogue.setSelectedOption option with
    | (d, Except.error e) => ({ r1 with dialogue := d }, Except.error e)
    | (d, Except.ok _) => (continueInNextUpdate { r1 with dialogue := d }, Except.ok ())

/-- The embedding of `DialogueRunner::start`: bails if already running,
otherwise marks the runner running and just-started and schedules a continue. -/
def start (r : DialogueRunner) : DialogueRunner × Except String Unit :=
  if r.is_running then
    (r, Except.error "Cannot start dialogue: it is already running")
  else
    (continueInNextUpdate { r with is_running := true, just_started := true },
      Except.ok ())

/-- The embedding of `DialogueRunner::start_at_node`: bails if already
running; otherwise marks the runner running and just-started, sets the node
(propagating its error with `?` after those mutations), and schedules a
continue. -/
def startAtNode (r : DialogueRunner) (node_name : String) :
    DialogueRunner × Except String Unit :=
  if r.is_running then
    (r, Except.error "Cannot start dialogue from node: it is already running")
  else
    let r1 := { r with is_running := true, just_started := true }
    match r1.dialogue.setNode node_name with
    | (d, Except.error e) => ({ r1 with dialogue := d }, Except.error e)
    | (d, Except.ok _) => (continueInNextUpdate { r1 with dialogue := d }, Except.ok ())

/-- The embedding of `DialogueRunner::are_texts_available`. -/
def areTextsAvailable (r : DialogueRunner) : Bool :=
  r.text_provider.lines_available

/-- The embedding of `DialogueRunner::are_assets_available`: all registered
asset providers report availability. -/
def areAssetsAvailable (r : DialogueRunner) : Bool :=
  r.asset_providers.all (fun p => p.assets_available)

/-- The embedding of `DialogueRunner::are_lines_available`. -/
def areLinesAvailable (r : DialogueRunner) : Bool :=
  areTextsAvailable r && areAssetsAvailable r

/-- A concrete runner: running, VM in `Running` (not waiting on an option
selection), no asset providers, no option selected yet. -/
def sampleRunner : DialogueRunner :=
  { dialogue := { execution_state := ExecutionState.Running
                  nodes := ["Start"]
                  current_node := some "Start"
                  current_options := []
                  selected_option_index := none },
    text_provider := { lines_available := true },
    asset_providers := [],
    will_continue_in_next_update := false,
    last_selected_option := none,
    is_running := true,
    run_selected_options_as_lines := false,
    just_started := false,
    popped_line_hints := none }

/-- C4 counterexample: calling `select_option` on a running runner whose VM is
not waiting on an option selection returns a recoverable error, yet the runner
is not left unchanged: `last_selected_option` has been overwritten before the
error propagates. -/
theorem C4_counterexample :
    isErr (selectOption sampleRunner 0).2 = true
    ∧ (selectOption sampleRunner 0).1 ≠ sampleRunner
    ∧ (selectOption sampleRunner 0).1.last_selected_option
      ≠ sampleRunner.last_selected_option := by
  refine ⟨by decide, by decide, by decide⟩

/-- C4 (amended): the state-error cases return a recoverable error;
`continue_in_next_update` while stopped, `start`/`start_at_node` while
running, and `select_option` while stopped leave the runner completely
unchanged, but `select_option` while running outside option selection records
the requested option in `last_selected_option` before the error is returned
(every other field, including the dialogue state, is unchanged). -/
theorem C4_state_errors (r : DialogueRunner) (node_name : String) (option : Nat) :
    (r.is_running = false →
      (tryContinueInNextUpdate r).1 = r ∧ isErr (tryContinueInNextUpdate r).2 = true)
    ∧ (r.is_running = true →
      (start r).1 = r ∧ isErr (start r).2 = true
      ∧ (startAtNode r node_name).1 = r ∧ isErr (startAtNode r node_name).2 = true)
    ∧ (r.is_running = false →
      (selectOption r option).1 = r ∧ isErr (selectOption r option).2 = true)
    ∧ (r.is_running = true →
      r.dialogue.execution_state ≠ ExecutionState.WaitingOnOptionSelection →
      (selectOption r option).1 = { r with last_selected_option := some option }
      ∧ isErr (selectOption r option).2 = true) := by
  refine ⟨?_, ?_, ?_, ?_⟩
  · intro h
    simp [tryContinueInNextUpdate, h, isErr]
  · intro h
    simp [start, startAtNode, h, isErr]
  · intro h
    simp [selectOption, h, isErr]
  · intro h1 h2
    simp [selectOption, h1, Dialogue.setSelectedOption, h2, isErr]

theorem C4_state_errors_witness :
    (start sampleRunner).1 = sampleRunner ∧ isErr (start sampleRunner).2 = true
    ∧ (startAtNode sampleRunner "Start").1 = sampleRunner
    ∧ isErr (startAtNode sampleRunner "Start").2 = true :=
  (C4_state_errors sampleRunner "Start" 0).2.1 (by decide)

/-- C10: `are_lines_available` is true exactly when the text provider reports
lines available and every registered asset provider reports assets available;
with zero asset providers it equals the text provider's report alone. -/
theorem C10_are_lines_available (r : DialogueRunner) :
    (areLinesAvailable r = true ↔
      (r.text_provider.lines_available = true
        ∧ ∀ p ∈ r.asset_providers, p.assets_available = true))
    ∧ (r.asset_providers = [] →
      areLinesAvailable r = r.text_provider.lines_available) := by
  constructor
  · simp [areLinesAvailable, areTextsAvailable, areAssetsAvailable, List.all_eq_true]
  · intro h
    simp [areLinesAvailable, areTextsAvailable, areAssetsAvailable, h]

theorem C10_are_lines_available_witness :
    areLinesAvailable sampleRunner = sampleRunner.text_provider.lines_available :=
  (C10_are_lines_available sampleRunner).2 (by decide)

/-- The embedding of Rust's `str::starts_with` on string literals: a
structural prefix check on the underlying character lists. -/
def strStartsWith (s p : String) : Bool := p.data.isPrefixOf s.data

/-- The embedding of `read_comments` from
`crates/bevy_plugin/src/localization/strings_file/creation.rs`: metadata
tokens not starting with `line:` joined by spaces behind the
`Line metadata: ` marker, or the empty string when none remain. -/
def readComments (metadata : List String) : String :=
  let cleaned_metadata := metadata.filter (fun m => ¬ strStartsWith m "line:")
  if cleaned_metadata.isEmpty then ""
  else "Line metadata: " ++ String.intercalate " " cleaned_metadata

/-- C9: the comments column is `Line metadata: ` followed by the non-`line:`
metadata tokens joined by single spaces in their original order, and it is
empty exactly when every token starts with `line:` (in particular for the
empty token list). -/
theorem C9_read_comments (metadata : List String) :
    (readComments metadata = "" ↔
      ∀ m ∈ metadata, strStartsWith m "line:" = true)
    ∧ ((∃ m ∈ metadata, strStartsWith m "line:" = false) →
      readComments metadata
        = "Line metadata: "
          ++ String.intercalate " " (metadata.filter (fun m => ¬ strStartsWith m "line:"))) := by
  constructor
  · unfold readComments
    by_cases h : (metadata.filter (fun m => ¬ strStartsWith m "line:")).isEmpty
    · rw [if_pos h]
      simp only [List.isEmpty_iff, List.filter_eq_nil_iff] at h
      constructor
      · intro _ m hm
        have := h m hm
        simpa using this
      · intro _
        rfl
    · rw [if_neg h]
      simp only [List.isEmpty_iff, List.filter_eq_nil_iff] at h
      push_neg at h
      constructor
      · intro habs
        have hdata : ("Line metadata: "
            ++ String.intercalate " "
              (metadata.filter (fun m => ¬ strStartsWith m "line:"))).data
            = ("" : String).data := congrArg String.data habs
        rw [String.data_append] at hdata
        have hlen := congrArg List.length hdata
        simp at hlen
      · intro hall
        rcases h with ⟨m, hm, hms⟩
        have hstart := hall m hm
        rw [hstart] at hms
        simp at hms
  · intro h
    rcases h with ⟨m, hm, hms⟩
    unfold readComments
    rw [if_neg ?_]
    intro habs
    simp only [List.isEmpty_iff, List.filter_eq_nil_iff] at habs
    have := habs m hm
    simp only [decide_eq_true_eq, Decidable.not_not] at this
    rw [this] at hms
    cases hms

theorem C9_read_comments_witness :
    readComments ["line:abc", "tone:sad", "camera"]
      = "Line metadata: "
        ++ String.intercalate " "
          ((["line:abc", "tone:sad", "camera"] : List String).filter
            (fun m => ¬ strStartsWith m "line:")) :=
  (C9_read_comments ["line:abc", "tone:sad", "camera"]).2
    ⟨"tone:sad", by decide, by decide⟩

/-- Lexicographic strict comparison of character lists: the embedding of
Rust's `str::cmp` returning `Less`. -/
def charListLT : List Char → List Char → Bool
  | [], [] => false
  | [], _ :: _ => true
  | _ :: _, [] => false
  | a :: as, b :: bs => if a < b then true else if b < a then false else charListLT as bs

theorem charListLT_trichotomy : ∀ a b : List Char,
    charListLT a b = true ∨ charListLT b a = true ∨ a = b := by
  intro a
  induction a with
  | nil =>
    intro b
    cases b with
    | nil => exact Or.inr (Or.inr rfl)
    | cons y ys => exact Or.inl rfl
  | cons x xs ih =>
    intro b
    cases b with
    | nil => exact Or.inr (Or.inl rfl)
    | cons y ys =>
      rcases lt_trichotomy x y with hxy | hxy | hxy
      · exact Or.inl (by simp [charListLT, hxy])
      · subst hxy
        rcases ih ys with h | h | h
        · exact Or.inl (by simp [charListLT, lt_irrefl, h])
        · exact Or.inr (Or.inl (by simp [charListLT, lt_irrefl, h]))
        · exact Or.inr (Or.inr (by rw [h]))
      · exact Or.inr (Or.inl (by simp [charListLT, hxy]))

theorem charListLT_trans : ∀ a b c : List Char,
    charListLT a b = true → charListLT b c = true → charListLT a c = true := by
  intro a
  induction a with
  | nil =>
    intro b c hab hbc
    cases b with
    | nil => cases hab
    | cons y ys =>
      cases c with
      | nil => cases hbc
      | cons z zs => rfl
  | cons x xs ih =>
    intro b c hab hbc
    cases b with
    | nil => cases hab
    | cons y ys =>
      cases c with
      | nil => cases hbc
      | cons z zs =>
        simp only [charListLT] at hab hbc ⊢
        rcases lt_trichotomy x y with hxy | hxy | hxy
        · rcases lt_trichotomy y z with hyz | hyz | hyz
          · simp [lt_trans hxy hyz]
          · subst hyz; simp [hxy]
          · rw [if_neg (lt_asymm hyz), if_pos hyz] at hbc
            cases hbc
        · subst hxy
          rw [if_neg (lt_irrefl x), if_neg (lt_irrefl x)] at hab
          rcases lt_trichotomy x z with hyz | hyz | hyz
          · simp [hyz]
          · subst hyz
            rw [if_neg (lt_irrefl x), if_neg (lt_irrefl x)] at hbc ⊢
            exact ih ys zs hab hbc
          · rw [if_neg (lt_asymm hyz), if_pos hyz] at hbc
            cases hbc
        · rw [if_neg (lt_asymm hxy), if_pos hxy] at hab
          cases hab

/-- One hexadecimal digit character. -/
def hexDigitChar (d : Nat) : Char :=
  if d < 10 then Char.ofNat (48 + d) else Char.ofNat (87 + d)

/-- The first eight hex digits of a 32-bit value, most significant first. -/
def hex8 (n : Nat) : String :=
  ⟨[hexDigitChar (n / 16 ^ 7 % 16), hexDigitChar (n / 16 ^ 6 % 16),
    hexDigitChar (n / 16 ^ 5 % 16), hexDigitChar (n / 16 ^ 4 % 16),
    hexDigitChar (n / 16 ^ 3 % 16), hexDigitChar (n / 16 ^ 2 % 16),
    hexDigitChar (n / 16 % 16), hexDigitChar (n % 16)]⟩

/-- Modelled from the spec: `Lock::compute_from` lives in the strings-file
module outside `src/`; per the spec the lock is the first eight hex digits of
a stable (non-cryptographic) hash of the base-language text. -/
def lockComputeFrom (text : String) : String :=
  hex8 (text.data.foldl (fun a c => (a * 31 + c.toNat) % 4294967296) 5381)

/-- A loaded yarn file as consumed by `create_strings_files`: its file name
and its compiled string table. -/
structure YarnFile where
  file_name : String
  string_table : List (String × StringInfo)
deriving DecidableEq

/-- A data row of a strings-file CSV (`StringsFileRecord`). -/
structure StringsFileRecord where
  language : String
  id : String
  text : String
  file : String
  node : String
  line_number : Nat
  lock : String
  comment : String
deriving DecidableEq

/-- The sort key used by `create_strings_files`:
`lhs_file_name.cmp(rhs_file_name).then(lhs.line_number.cmp(&rhs.line_number))`
as a boolean `≤` on the `(id, string_info, file_name)` tuples. -/
def tupleLE (a b : String × StringInfo × String) : Bool :=
  charListLT a.2.2.data b.2.2.data
    || (decide (a.2.2 = b.2.2) && decide (a.2.1.line_number ≤ b.2.1.line_number))

theorem tupleLE_trans (a b c : String × StringInfo × String)
    (hab : tupleLE a b = true) (hbc : tupleLE b c = true) : tupleLE a c = true := by
  unfold tupleLE at *
  simp only [Bool.or_eq_true, Bool.and_eq_true, decide_eq_true_eq] at hab hbc ⊢
  rcases hab with hab | ⟨hab, habn⟩
  · rcases hbc with hbc | ⟨hbc, hbcn⟩
    · exact Or.inl (charListLT_trans _ _ _ hab hbc)
    · rw [hbc] at hab
      exact Or.inl hab
  · rcases hbc with hbc | ⟨hbc, hbcn⟩
    · rw [← hab] at hbc
      exact Or.inl hbc
    · exact Or.inr ⟨hab.trans hbc, habn.trans hbcn⟩

theorem tupleLE_total (a b : String × StringInfo × String) :
    (tupleLE a b || tupleLE b a) = true := by
  unfold tupleLE
  simp only [Bool.or_eq_true, Bool.and_eq_true, decide_eq_true_eq]
  rcases charListLT_trichotomy a.2.2.data b.2.2.data with h | h | h
  · exact Or.inl (Or.inl h)
  · exact Or.inr (Or.inl h)
  · have heq : a.2.2 = b.2.2 := String.ext h
    rcases Nat.le_total a.2.1.line_number b.2.1.line_number with hn | hn
    · exact Or.inl (Or.inr ⟨heq, hn⟩)
    · exact Or.inr (Or.inr ⟨heq.symm, hn⟩)

/-- The record-building pipeline of `create_strings_files` for one language:
flatten every yarn file's string table to `(id, string_info, file_name)`
tuples, stable-sort by `(file_name, line_number)`, and map each tuple to a
`StringsFileRecord` for the target language. -/
def stringsFileRecords (language : String) (yarn_files : List YarnFile) :
    List StringsFileRecord :=
  let flat := (yarn_files.map (fun yf =>
    yf.string_table.map (fun p => (p.1, p.2, yf.file_name)))).flatten
  let sorted := flat.mergeSort tupleLE
  sorted.map (fun x =>
    { language := language
      id := x.1
      text := x.2.1.text
      file := x.2.2
      node := x.2.1.node_name
      line_number := x.2.1.line_number
      lock := lockComputeFrom x.2.1.text
      comment := readComments x.2.1.metadata })

/-- C8: every generated strings-file row list is sorted by the pair
`(file, line_number)`, every row's lock is computed from that row's
base-language text, and every row's language column is the target language. -/
theorem C8_records_sorted_lock_language (language : String) (yarn_files : List YarnFile) :
    List.Pairwise (fun r1 r2 : StringsFileRecord =>
        charListLT r1.file.data r2.file.data = true
          ∨ (r1.file = r2.file ∧ r1.line_number ≤ r2.line_number))
      (stringsFileRecords language yarn_files)
    ∧ ∀ r ∈ stringsFileRecords language yarn_files,
      r.lock = lockComputeFrom r.text ∧ r.language = language := by
  constructor
  · unfold stringsFileRecords
    rw [List.pairwise_map]
    have hsorted := List.sorted_mergeSort tupleLE_trans tupleLE_total
      ((yarn_files.map (fun yf =>
        yf.string_table.map (fun p => (p.1, p.2, yf.file_name)))).flatten)
    refine hsorted.imp ?_
    intro a b hab
    unfold tupleLE at hab
    simp only [Bool.or_eq_true, Bool.and_eq_true, decide_eq_true_eq] at hab
    rcases hab with hab | ⟨hab, habn⟩
    · exact Or.inl hab
    · exact Or.inr ⟨hab, habn⟩
  · intro r hr
    unfold stringsFileRecords at hr
    rcases List.mem_map.mp hr with ⟨x, _, rfl⟩
    exact ⟨rfl, rfl⟩

/-- The file-generation mode configuration enum. -/
inductive FileGenerationMode
  | Development
  | Production
deriving DecidableEq

/-- One configured translation: its language and its strings-file path. -/
structure Localization where
  language : String
  strings_file : String
deriving DecidableEq

/-- The localizations configuration as consumed by `create_strings_files`. -/
structure Localizations where
  base_language : String
  translations : List Localization
  file_generation_mode : FileGenerationMode
deriving DecidableEq

/-- The `for localization in &localizations.translations` loop of
`create_strings_files`. Inputs carried through the loop: the
language-to-strings-file map and the list of files written so far. Disk reads
are modelled by the set `disk` of paths present when the system ran; the
result triple is the final map, the files written during the run, and the
error that aborted the run, if any. -/
def csfLoop (mode : FileGenerationMode) (disk : List String) (yarn_files : List YarnFile) :
    List Localization → List (String × String) → List (String × List StringsFileRecord) →
    List (String × String) × List (String × List StringsFileRecord) × Option String
  | [], ltsf, written => (ltsf, written, none)
  | loc :: rest, ltsf, written =>
    if ltsf.any (fun p => p.1 = loc.language) then
      csfLoop mode disk yarn_files rest ltsf written
    else if disk.contains loc.strings_file then
      csfLoop mode disk yarn_files rest (ltsf ++ [(loc.language, loc.strings_file)]) written
    else if mode = FileGenerationMode.Development then
      csfLoop mode disk yarn_files rest (ltsf ++ [(loc.language, loc.strings_file)])
        (written ++ [(loc.strings_file, stringsFileRecords loc.language yarn_files)])
    else
      (ltsf, written,
        some "Can't load strings file because it does not exist on disk, but can't generate it either because the file generation mode is not set to Development")

/-- The embedding of the `create_strings_files` system: retain only supported
languages in the map, then run the loop over the configured translations with
nothing written yet. -/
def createStringsFiles (localizations : Localizations) (disk : List String)
    (ltsf : List (String × String)) (yarn_files : List YarnFile) :
    List (String × String) × List (String × List StringsFileRecord) × Option String :=
  let retained := ltsf.filter
    (fun p => localizations.translations.any (fun l => l.language = p.1))
  csfLoop localizations.file_generation_mode disk yarn_files
    localizations.translations retained []

theorem csfLoop_written_mono (mode : FileGenerationMode) (disk : List String)
    (yf : List YarnFile) : ∀ (trans : List Localization) (ltsf : List (String × String))
    (w : List (String × List StringsFileRecord)) (p : String × List StringsFileRecord),
    p ∈ w → p ∈ (csfLoop mode disk yf trans ltsf w).2.1 := by
  intro trans
  induction trans with
  | nil => intro ltsf w p hp; exact hp
  | cons loc rest ih =>
    intro ltsf w p hp
    by_cases h1 : ltsf.any (fun q => q.1 = loc.language) = true
    · simp only [csfLoop, h1, if_true]
      exact ih ltsf w p hp
    · rw [Bool.not_eq_true] at h1
      by_cases h2 : disk.contains loc.strings_file = true
      · simp only [csfLoop, h1, h2, Bool.false_eq_true, if_false, if_true]
        exact ih _ w p hp
      · rw [Bool.not_eq_true] at h2
        by_cases h3 : mode = FileGenerationMode.Development
        · subst h3
          simp only [csfLoop, h1, h2, Bool.false_eq_true, if_false,
            eq_self_iff_true, if_true]
          exact ih _ _ p (List.mem_append_left _ hp)
        · simp only [csfLoop, h1, h2, h3, Bool.false_eq_true, if_false]
          exact hp

theorem csfLoop_no_writes_production (disk : List String) (yf : List YarnFile) :
    ∀ (trans : List Localization) (ltsf : List (String × String))
    (w : List (String × List StringsFileRecord)),
    (csfLoop FileGenerationMode.Production disk yf trans ltsf w).2.1 = w := by
  intro trans
  induction trans with
  | nil => intro ltsf w; rfl
  | cons loc rest ih =>
    intro ltsf w
    by_cases h1 : ltsf.any (fun q => q.1 = loc.language) = true
    · simp only [csfLoop, h1, if_true]
      exact ih ltsf w
    · rw [Bool.not_eq_true] at h1
      by_cases h2 : disk.contains loc.strings_file = true
      · simp only [csfLoop, h1, h2, Bool.false_eq_true, if_false, if_true]
        exact ih _ w
      · rw [Bool.not_eq_true] at h2
        simp only [csfLoop, h1, h2, Bool.false_eq_true, if_false,
          reduceCtorEq, if_false]

theorem csfLoop_written_not_on_disk (mode : FileGenerationMode) (disk : List String)
    (yf : List YarnFile) : ∀ (trans : List Localization) (ltsf : List (String × String))
    (w : List (String × List StringsFileRecord)),
    (∀ p ∈ w, p.1 ∉ disk) →
    ∀ p ∈ (csfLoop mode disk yf trans ltsf w).2.1, p.1 ∉ disk := by
  intro trans
  induction trans with
  | nil => intro ltsf w hw p hp; exact hw p hp
  | cons loc rest ih =>
    intro ltsf w hw p hp
    by_cases h1 : ltsf.any (fun q => q.1 = loc.language) = true
    · simp only [csfLoop, h1, if_true] at hp
      exact ih ltsf w hw p hp
    · rw [Bool.not_eq_true] at h1
      by_cases h2 : disk.contains loc.strings_file = true
      · simp only [csfLoop, h1, h2, Bool.false_eq_true, if_false, if_true] at hp
        exact ih _ w hw p hp
      · rw [Bool.not_eq_true] at h2
        by_cases h3 : mode = FileGenerationMode.Development
        · subst h3
          simp only [csfLoop, h1, h2, Bool.false_eq_true, if_false,
            eq_self_iff_true, if_true] at hp
          refine ih _ _ ?_ p hp
          intro q hq
          rcases List.mem_append.mp hq with hq' | hq'
          · exact hw q hq'
          · rcases List.mem_singleton.mp hq' with rfl
            simpa using h2
        · simp only [csfLoop, h1, h2, h3, Bool.false_eq_true, if_false] at hp
          exact hw p hp

theorem csfLoop_dev_no_error (disk : List String) (yf : List YarnFile) :
    ∀ (trans : List Localization) (ltsf : List (String × String))
    (w : List (String × List StringsFileRecord)),
    (csfLoop FileGenerationMode.Development disk yf trans ltsf w).2.2 = none := by
  intro trans
  induction trans with
  | nil => intro ltsf w; rfl
  | cons loc rest ih =>
    intro ltsf w
    by_cases h1 : ltsf.any (fun q => q.1 = loc.language) = true
    · simp only [csfLoop, h1, if_true]
      exact ih ltsf w
    · rw [Bool.not_eq_true] at h1
      by_cases h2 : disk.contains loc.strings_file = true
      · simp only [csfLoop, h1, h2, Bool.false_eq_true, if_false, if_true]
        exact ih _ w
      · rw [Bool.not_eq_true] at h2
        simp only [csfLoop, h1, h2, Bool.false_eq_true, if_false, if_true]
        exact ih _ _

theorem any_fst_eq_false_iff {β : Type} (t : List (String × β)) (k : String) :
    t.any (fun p => p.1 = k) = false ↔ k ∉ t.map Prod.fst := by
  induction t with
  | nil => simp
  | cons p t ih =>
    simp only [List.any_cons, Bool.or_eq_false_iff, decide_eq_false_iff_not,
      List.map_cons, List.mem_cons, not_or] at *
    constructor
    · intro h
      exact ⟨fun he => h.1 he.symm, ih.mp h.2⟩
    · intro h
      exact ⟨fun he => h.1 he.symm, ih.mpr h.2⟩

theorem csfLoop_dev_generates (disk : List String) (yf : List YarnFile) :
    ∀ (trans : List Localization), (trans.map Localization.language).Nodup →
    ∀ (ltsf : List (String × String)) (w : List (String × List StringsFileRecord))
    (loc : Localization), loc ∈ trans → loc.language ∉ ltsf.map Prod.fst →
    loc.strings_file ∉ disk →
    (loc.strings_file, stringsFileRecords loc.language yf)
      ∈ (csfLoop FileGenerationMode.Development disk yf trans ltsf w).2.1 := by
  intro trans
  induction trans with
  | nil => intro _ ltsf w loc hloc; cases hloc
  | cons loc' rest ih =>
    intro hnodup ltsf w loc hloc hnotin hnotdisk
    rw [List.map_cons, List.nodup_cons] at hnodup
    rcases List.mem_cons.mp hloc with rfl | hloc'
    · have h1 : ltsf.any (fun q => q.1 = loc.language) = false :=
        (any_fst_eq_false_iff ltsf loc.language).mpr hnotin
      have h2 : disk.contains loc.strings_file = false := by
        simpa using hnotdisk
      simp only [csfLoop, h1, h2, Bool.false_eq_true, if_false, if_true]
      exact csfLoop_written_mono _ _ _ _ _ _ _
        (List.mem_append_right _ (List.mem_singleton_self _))
    · have hne : loc'.language ≠ loc.language := by
        intro he
        exact hnodup.1 (he ▸ List.mem_map_of_mem Localization.language hloc')
      by_cases h1 : ltsf.any (fun q => q.1 = loc'.language) = true
      · simp only [csfLoop, h1, if_true]
        exact ih hnodup.2 ltsf w loc hloc' hnotin hnotdisk
      · rw [Bool.not_eq_true] at h1
        have hnotin' : loc.language ∉ (ltsf ++ [(loc'.language, loc'.strings_file)]).map Prod.fst := by
          rw [List.map_append, List.map_singleton]
          intro hmem
          rcases List.mem_append.mp hmem with hmem' | hmem'
          · exact hnotin hmem'
          · exact hne (List.mem_singleton.mp hmem').symm
        by_cases h2 : disk.contains loc'.strings_file = true
        · simp only [csfLoop, h1, h2, Bool.false_eq_true, if_false, if_true]
          exact ih hnodup.2 _ w loc hloc' hnotin' hnotdisk
        · rw [Bool.not_eq_true] at h2
          simp only [csfLoop, h1, h2, Bool.false_eq_true, if_false, if_true]
          exact ih hnodup.2 _ _ loc hloc' hnotin' hnotdisk

theorem csfLoop_production_error (disk : List String) (yf : List YarnFile) :
    ∀ (trans : List Localization), (trans.map Localization.language).Nodup →
    ∀ (ltsf : List (String × String)) (w : List (String × List StringsFileRecord))
    (loc : Localization), loc ∈ trans → loc.language ∉ ltsf.map Prod.fst →
    loc.strings_file ∉ disk →
    (csfLoop FileGenerationMode.Production disk yf trans ltsf w).2.2.isSome = true := by
  intro trans
  induction trans with
  | nil => intro _ ltsf w loc hloc; cases hloc
  | cons loc' rest ih =>
    intro hnodup ltsf w loc hloc hnotin hnotdisk
    rw [List.map_cons, List.nodup_cons] at hnodup
    rcases List.mem_cons.mp hloc with rfl | hloc'
    · have h1 : ltsf.any (fun q => q.1 = loc.language) = false :=
        (any_fst_eq_false_iff ltsf loc.language).mpr hnotin
      have h2 : disk.contains loc.strings_file = false := by
        simpa using hnotdisk
      simp only [csfLoop, h1, h2, Bool.false_eq_true, if_false, reduceCtorEq]
      rfl
    · have hne : loc'.language ≠ loc.language := by
        intro he
        exact hnodup.1 (he ▸ List.mem_map_of_mem Localization.language hloc')
      by_cases h1 : ltsf.any (fun q => q.1 = loc'.language) = true
      · simp only [csfLoop, h1, if_true]
        exact ih hnodup.2 ltsf w loc hloc' hnotin hnotdisk
      · rw [Bool.not_eq_true] at h1
        have hnotin' : loc.language ∉ (ltsf ++ [(loc'.language, loc'.strings_file)]).map Prod.fst := by
          rw [List.map_append, List.map_singleton]
          intro hmem
          rcases List.mem_append.mp hmem with hmem' | hmem'
          · exact hnotin hmem'
          · exact hne (List.mem_singleton.mp hmem').symm
        by_cases h2 : disk.contains loc'.strings_file = true
        · simp only [csfLoop, h1, h2, Bool.false_eq_true, if_false, if_true]
          exact ih hnodup.2 _ w loc hloc' hnotin' hnotdisk
        · rw [Bool.not_eq_true] at h2
          simp only [csfLoop, h1, h2, Bool.false_eq_true, if_false, reduceCtorEq]
          rfl

theorem mem_filter_map_fst {β : Type} (t : List (String × β)) (q : String × β → Bool)
    (k : String) (hk : k ∉ t.map Prod.fst) : k ∉ (t.filter q).map Prod.fst := by
  intro hmem
  rcases List.mem_map.mp hmem with ⟨p, hp, hpk⟩
  exact hk (List.mem_map.mpr ⟨p, List.mem_of_mem_filter hp, hpk⟩)

/-- C7: under the `Development` file-generation mode the run never fails and
every configured translation language that is not yet registered and whose
strings file is absent from disk gets its file generated from the base string
table; under `Production`, if some unregistered translation's strings file is
absent, the run fails with an error and writes nothing at all; and in either
mode no file that already exists on disk is ever written. -/
theorem C7_file_generation_mode_policy (L : Localizations) (disk : List String)
    (ltsf : List (String × String)) (yf : List YarnFile)
    (hnodup : (L.translations.map Localization.language).Nodup) :
    (L.file_generation_mode = FileGenerationMode.Development →
      (createStringsFiles L disk ltsf yf).2.2 = none
      ∧ ∀ loc ∈ L.translations, loc.language ∉ ltsf.map Prod.fst →
        loc.strings_file ∉ disk →
        (loc.strings_file, stringsFileRecords loc.language yf)
          ∈ (createStringsFiles L disk ltsf yf).2.1)
    ∧ (L.file_generation_mode = FileGenerationMode.Production →
      (createStringsFiles L disk ltsf yf).2.1 = []
      ∧ ∀ loc ∈ L.translations, loc.language ∉ ltsf.map Prod.fst →
        loc.strings_file ∉ disk →
        (createStringsFiles L disk ltsf yf).2.2.isSome = true)
    ∧ (∀ p ∈ (createStringsFiles L disk ltsf yf).2.1, p.1 ∉ disk) := by
  refine ⟨?_, ?_, ?_⟩
  · intro hmode
    unfold createStringsFiles
    rw [hmode]
    constructor
    · exact csfLoop_dev_no_error disk yf L.translations _ []
    · intro loc hloc hnotin hnotdisk
      exact csfLoop_dev_generates disk yf L.translations hnodup _ [] loc hloc
        (mem_filter_map_fst ltsf _ loc.language hnotin) hnotdisk
  · intro hmode
    unfold createStringsFiles
    rw [hmode]
    constructor
    · exact csfLoop_no_writes_production disk yf L.translations _ []
    · intro loc hloc hnotin hnotdisk
      exact csfLoop_production_error disk yf L.translations hnodup _ [] loc hloc
        (mem_filter_map_fst ltsf _ loc.language hnotin) hnotdisk
  · intro p hp
    unfold createStringsFiles at hp
    exact csfLoop_written_not_on_disk L.file_generation_mode disk yf L.translations _ []
      (by intro q hq; cases hq) p hp

/-- A one-translation Development configuration for the witness scenario. -/
def c7Loc : Localizations :=
  { base_language := "en-US"
    translations := [{ language := "de-CH", strings_file := "de-CH.strings.csv" }]
    file_generation_mode := FileGenerationMode.Development }

/-- A one-file base string table for the witness scenario. -/
def c7Yarn : YarnFile :=
  { file_name := "a.yarn"
    string_table := [("line:a.yarn-Start-0", exampleLine "Hi" 1)] }

theorem C7_file_generation_mode_policy_witness :
    ("de-CH.strings.csv", stringsFileRecords "de-CH" [c7Yarn])
      ∈ (createStringsFiles c7Loc [] [] [c7Yarn]).2.1 :=
  ((C7_file_generation_mode_policy c7Loc [] [] [c7Yarn] (by decide)).1 rfl).2
    { language := "de-CH", strings_file := "de-CH.strings.csv" }
    (by decide) (by decide) (by decide)

/-- Modelled from the spec: an author tag on a narrative line; an explicit
line identifier is a tag of shape `#line:<token>`, any other author tag is
kept opaque. -/
inductive LineTag
  | lineId (id : String)
  | other (s : String)
deriving DecidableEq

/-- Modelled from the spec: one line of narrative source text — its verbatim
content, whether it bears a statement, and its author tags in order. -/
structure SrcLine where
  content : String
  is_statement : Bool
  tags : List LineTag
deriving DecidableEq

/-- Whether a line already carries an explicit `#line:` tag. -/
def hasLineTag (l : SrcLine) : Bool :=
  l.tags.any (fun t => match t with
    | LineTag.lineId _ => true
    | LineTag.other _ => false)

/-- Modelled from the spec: the deterministic candidate ids considered during
injection. -/
def candidateId (k : Nat) : String := "line:" ++ natDec k

/-- Modelled from the spec: the first candidate id that avoids both the
pre-existing explicit ids and the ids injected earlier in this pass. -/
def pickFresh (used : List String) : String :=
  (((List.range (used.length + 1)).map candidateId).filter
    (fun c => ¬ used.contains c)).headD (candidateId 0)

/-- Modelled from the spec: process one source line of the injector
(`YarnCompiler::add_tags_to_lines` is outside `src/`) — a statement-bearing
line lacking an explicit line tag gets one appended (recording the new id as
used), every other line passes unchanged. The flag reports whether the line
changed. -/
def injectLine (used : List String) (l : SrcLine) : List String × SrcLine × Bool :=
  if l.is_statement && !hasLineTag l then
    let id := pickFresh used
    (id :: used, { l with tags := l.tags ++ [LineTag.lineId id] }, true)
  else (used, l, false)

/-- Modelled from the spec: process all lines in order, threading the used-id
set; returns the processed source and whether any line changed. -/
def injectAll : List String → List SrcLine → List SrcLine × Bool
  | _, [] => ([], false)
  | used, l :: ls =>
    let r := injectLine used l
    let rest := injectAll r.1 ls
    (r.2.1 :: rest.1, r.2.2 || rest.2)

/-- Modelled from the spec: the injector entry point — `none` when no line
needed tagging, otherwise the new source. -/
def addTagsToLines (existing : List String) (src : List SrcLine) :
    Option (List SrcLine) :=
  let r := injectAll existing src
  if r.2 then some r.1 else none

/-- The explicit line ids already carried by tags in the source; this is the
`existing_tags` set that `add_tags_to_lines` in `line_id_generation.rs`
extracts from the string table (the non-implicit keys). -/
def existingLineIds (src : List SrcLine) : List String :=
  (src.map (fun l => l.tags.filterMap (fun t => match t with
    | LineTag.lineId id => some id
    | LineTag.other _ => none))).flatten

/-- One full injection pass as the plugin runs it: inject against the
source's own explicit ids, keeping the source untouched when the injector
reports no change. -/
def injectPass (src : List SrcLine) : List SrcLine :=
  (addTagsToLines (existingLineIds src) src).getD src

theorem injectAll_statement_tagged : ∀ (src : List SrcLine) (used : List String),
    ∀ l ∈ (injectAll used src).1, l.is_statement = true → hasLineTag l = true := by
  intro src
  induction src with
  | nil => intro used l hl; cases hl
  | cons x xs ih =>
    intro used l hl hstmt
    by_cases hcond : (x.is_statement && !hasLineTag x) = true
    · simp only [injectAll, injectLine, hcond, if_true] at hl
      rcases List.mem_cons.mp hl with rfl | hl'
      · simp [hasLineTag, List.any_append]
      · exact ih _ l hl' hstmt
    · rw [Bool.not_eq_true] at hcond
      simp only [injectAll, injectLine, hcond, Bool.false_eq_true, if_false] at hl
      rcases List.mem_cons.mp hl with rfl | hl'
      · rcases Bool.and_eq_false_iff.mp hcond with h | h
        · rw [hstmt] at h
          cases h
        · simpa using h
      · exact ih _ l hl' hstmt

theorem injectAll_no_change : ∀ (src : List SrcLine) (used : List String),
    (∀ l ∈ src, l.is_statement = true → hasLineTag l = true) →
    injectAll used src = (src, false) := by
  intro src
  induction src with
  | nil => intro used _; rfl
  | cons x xs ih =>
    intro used hall
    have hcond : (x.is_statement && !hasLineTag x) = false := by
      by_cases hs : x.is_statement = true
      · rw [hall x (List.mem_cons_self x xs) hs]
        simp
      · rw [Bool.not_eq_true] at hs
        simp [hs]
    simp only [injectAll, injectLine, hcond, Bool.false_eq_true, if_false]
    rw [ih used (fun l hl => hall l (List.mem_cons_of_mem x hl))]
    rfl

theorem injectPass_statement_tagged (src : List SrcLine) :
    ∀ l ∈ injectPass src, l.is_statement = true → hasLineTag l = true := by
  intro l hl hstmt
  unfold injectPass addTagsToLines at hl
  by_cases hch : (injectAll (existingLineIds src) src).2 = true
  · simp only [hch, if_true, Option.getD_some] at hl
    exact injectAll_statement_tagged src _ l hl hstmt
  · rw [Bool.not_eq_true] at hch
    simp only [hch, Bool.false_eq_true, if_false, Option.getD_none] at hl
    revert hch
    generalize hpair : injectAll (existingLineIds src) src = pr
    intro hch
    -- with change flag false, the processed line list is the original and no
    -- line required tagging; re-derive tagging for the original lines
    have : l ∈ pr.1 → l.is_statement = true → hasLineTag l = true := by
      intro hl' hstmt'
      have := injectAll_statement_tagged src (existingLineIds src)
      rw [hpair] at this
      exact this l hl' hstmt'
    -- relate pr.1 to src: when no line changes, injectAll returns the lines
    -- unchanged; prove by a direct induction embedded here
    have hid : ∀ (s : List SrcLine) (u : List String),
        (injectAll u s).2 = false → (injectAll u s).1 = s := by
      intro s
      induction s with
      | nil => intro u _; rfl
      | cons x xs ihs =>
        intro u hflag
        by_cases hcond : (x.is_statement && !hasLineTag x) = true
        · simp only [injectAll, injectLine, hcond, if_true] at hflag
          cases hflag
        · rw [Bool.not_eq_true] at hcond
          simp only [injectAll, injectLine, hcond, Bool.false_eq_true, if_false,
            Bool.false_or] at hflag ⊢
          rw [ihs _ hflag]
    have hsrc1 : pr.1 = src := by
      rw [← hpair]
      exact hid src _ (by rw [hpair]; exact hch)
    exact this (hsrc1 ▸ hl) hstmt

/-- C6: the Line-ID Injector is idempotent — running a pass on the result of
a pass changes nothing: the injector reports no change needed (`none`) and the
source is returned verbatim. Determinism is definitional: the embedded
injector is a pure function of its input. -/
theorem C6_injector_idempotent (src : List SrcLine) :
    addTagsToLines (existingLineIds (injectPass src)) (injectPass src) = none
    ∧ injectPass (injectPass src) = injectPass src := by
  have hnone : addTagsToLines (existingLineIds (injectPass src)) (injectPass src) = none := by
    unfold addTagsToLines
    rw [injectAll_no_change (injectPass src) (existingLineIds (injectPass src))
      (injectPass_statement_tagged src)]
    rfl
  refine ⟨hnone, ?_⟩
  unfold injectPass
  rw [show addTagsToLines (existingLineIds ((addTagsToLines (existingLineIds src) src).getD src))
      ((addTagsToLines (existingLineIds src) src).getD src) = none from hnone]
  rfl


/-- The Yarn value model: a tagged union of kinds {number, string, boolean}.
A number is the spec's finite 64-bit binary float, represented by its exact
rational value; every number built by the conversions below is representable,
because integers enter a Value only through `f64OfInt`, which rounds them to
53 significant bits first. -/
inductive YarnValue
  | number (q : Rat)
  | str (s : String)
  | boolean (b : Bool)
deriving DecidableEq

/-- An integer parameter width: signedness and bit width. Instantiating it
covers i8..i128, u8..u128 and the pointer-sized variants. -/
structure IntWidth where
  signed : Bool
  bits : Nat
deriving DecidableEq

/-- The smallest native value of an integer width. -/
def IntWidth.intMin (w : IntWidth) : Int :=
  if w.signed then -(2 ^ (w.bits - 1)) else 0

/-- The largest native value of an integer width. -/
def IntWidth.intMax (w : IntWidth) : Int :=
  if w.signed then 2 ^ (w.bits - 1) - 1 else 2 ^ w.bits - 1

/-- The native values of an integer width: the integers within its range. -/
@[reducible] def IntWidth.carrier (w : IntWidth) : Type :=
  { n : Int // w.intMin ≤ n ∧ n ≤ w.intMax }

/-- Core of the bit-length computation, with explicit fuel so the recursion
is structural. -/
def bitLenCore : Nat → Nat → Nat
  | 0, _ => 0
  | fuel + 1, n => if n = 0 then 0 else bitLenCore fuel (n / 2) + 1

/-- The number of binary digits of `n` (0 for 0). -/
def bitLen (n : Nat) : Nat := bitLenCore n n

/-- Modelled from the spec: round-to-nearest, ties-to-even, of a natural
number to 53 significant bits — how a wide integer is converted to the
spec's finite 64-bit float. Integers of every supported width stay far below
the binary64 overflow threshold, so no overflow case arises. -/
def roundNatF64 (n : Nat) : Nat :=
  if n < 2 ^ 53 then n
  else
    let shift := bitLen n - 53
    let q := n / 2 ^ shift
    let r := n % 2 ^ shift
    let half := 2 ^ (shift - 1)
    let q2 :=
      if r < half then q
      else if half < r then q + 1
      else if q % 2 = 0 then q else q + 1
    q2 * 2 ^ shift

/-- Conversion of an integer to the 64-bit float payload of a Value: the
magnitude is rounded to 53 significant bits and the sign reattached (binary64
rounding is sign-magnitude symmetric). -/
def f64OfInt (n : Int) : Rat :=
  if n < 0 then -(roundNatF64 n.natAbs : Rat) else (roundNatF64 n.natAbs : Rat)

/-- The kinds a bound host-function parameter may declare: boolean, an
integer of any width, the 64-bit float, owned or borrowed string, or an
untyped value (borrowed kinds convert identically to their owned versions;
the float parameter carries the same payload as the Value's number, so its
conversions are the identity). -/
inductive ParamKind
  | pBool
  | pInt (w : IntWidth)
  | pNum
  | pStr
  | pValue
deriving DecidableEq

/-- The native carrier of each parameter kind. -/
@[reducible] def ParamKind.carrier : ParamKind → Type
  | ParamKind.pBool => Bool
  | ParamKind.pInt w => w.carrier
  | ParamKind.pNum => Rat
  | ParamKind.pStr => String
  | ParamKind.pValue => YarnValue

/-- The kinds a return value may declare: as the parameter kinds but with
neither references nor `YarnValue`. -/
inductive RetKind
  | rBool
  | rInt (w : IntWidth)
  | rNum
  | rStr
deriving DecidableEq

/-- The native carrier of each return kind. -/
@[reducible] def RetKind.carrier : RetKind → Type
  | RetKind.rBool => Bool
  | RetKind.rInt w => w.carrier
  | RetKind.rNum => Rat
  | RetKind.rStr => String

/-- Truncation of a rational toward zero, the rounding mode of Rust's
number→integer casts. -/
def ratTrunc (q : Rat) : Int := q.num.tdiv (q.den : Int)

/-- Modelled from the spec: conversion of a native argument into a
`YarnValue` (the `From` impls of the core crate's value module, outside
`src/`). Integer arguments pass through the lossy float conversion
`f64OfInt`. -/
def toYarnValue : (k : ParamKind) → k.carrier → YarnValue
  | ParamKind.pBool, b => YarnValue.boolean b
  | ParamKind.pInt _, n => YarnValue.number (f64OfInt n.val)
  | ParamKind.pNum, q => YarnValue.number q
  | ParamKind.pStr, s => YarnValue.str s
  | ParamKind.pValue, v => v

/-- Modelled from the spec: conversion of a host function's return into a
`YarnValue` (`IntoYarnValueFromNonYarnValue`, outside `src/`); integer
returns pass through the same lossy float conversion. -/
def retToYarnValue : (r : RetKind) → r.carrier → YarnValue
  | RetKind.rBool, b => YarnValue.boolean b
  | RetKind.rInt _, n => YarnValue.number (f64OfInt n.val)
  | RetKind.rNum, q => YarnValue.number q
  | RetKind.rStr, s => YarnValue.str s

/-- Modelled from the spec: `YarnFnParam::retrieve` — conversion of one
incoming `YarnValue` to the declared parameter kind. Number→integer
truncates toward zero and fails if the result is out of the declared width's
range; Value→Value is the identity; kind mismatches fail the call. -/
def retrieve : (k : ParamKind) → YarnValue → Option k.carrier
  | ParamKind.pBool, YarnValue.boolean b => some b
  | ParamKind.pBool, _ => none
  | ParamKind.pInt w, YarnValue.number q =>
    if h : w.intMin ≤ ratTrunc q ∧ ratTrunc q ≤ w.intMax then some ⟨ratTrunc q, h⟩
    else none
  | ParamKind.pInt _, _ => none
  | ParamKind.pNum, YarnValue.number q => some q
  | ParamKind.pNum, _ => none
  | ParamKind.pStr, YarnValue.str s => some s
  | ParamKind.pStr, _ => none
  | ParamKind.pValue, v => some v

/-- A heterogeneous tuple of native arguments for a declared parameter list. -/
inductive ArgList : List ParamKind → Type
  | nil : ArgList []
  | cons {k : ParamKind} {ks : List ParamKind} :
      k.carrier → ArgList ks → ArgList (k :: ks)

/-- A host function of the declared signature: any Lean function over the
native carriers of the parameter kinds, returning the return kind's carrier. -/
def HostFn (ps : List ParamKind) (r : RetKind) : Type := ArgList ps → r.carrier

/-- The embedding of the macro-generated `YarnFn::call` conversion stage from
`crates/core/src/yarn_fn/function_wrapping.rs`: deconstruct the incoming
value vector positionally (failing on arity mismatch, where the Rust code
panics) and retrieve each declared parameter from its value. -/
def retrieveAll : (ps : List ParamKind) → List YarnValue → Option (ArgList ps)
  | [], [] => some ArgList.nil
  | [], _ :: _ => none
  | _ :: _, [] => none
  | k :: ks, v :: vs =>
    match retrieve k v, retrieveAll ks vs with
    | some a, some rest => some (ArgList.cons a rest)
    | _, _ => none

/-- The embedding of the erased wrapper call (`UntypedYarnFn::call` on
`YarnFnWrapper`, which runs the macro-generated `YarnFn::call` and then
`into_untyped_value`): retrieve every declared parameter, invoke the
underlying function, convert the return to a value. -/
def wrapperCall {ps : List ParamKind} {r : RetKind} (f : HostFn ps r)
    (input : List YarnValue) : Option YarnValue :=
  (retrieveAll ps input).map (fun args => retToYarnValue r (f args))

/-- The value vector derived from a tuple of native arguments. -/
def toValues : {ps : List ParamKind} → ArgList ps → List YarnValue
  | _, ArgList.nil => []
  | _, ArgList.cons a rest => toYarnValue _ a :: toValues rest

/-- Whether a native argument of the given kind is exactly representable in
the 64-bit float Value: an integer argument must fit in 53 significant bits;
every other kind converts exactly. -/
def argSmall : (k : ParamKind) → k.carrier → Bool
  | ParamKind.pInt _, n => n.val.natAbs < 2 ^ 53
  | _, _ => true

/-- Whether every argument of the tuple is exactly representable. -/
def argsSmall : {ps : List ParamKind} → ArgList ps → Bool
  | _, ArgList.nil => true
  | _, ArgList.cons a rest => argSmall _ a && argsSmall rest

theorem roundNatF64_small (n : Nat) (h : n < 2 ^ 53) : roundNatF64 n = n :=
  if_pos h

theorem f64OfInt_small (n : Int) (h : n.natAbs < 2 ^ 53) : f64OfInt n = (n : Rat) := by
  unfold f64OfInt
  by_cases hn : n < 0
  · rw [if_pos hn, roundNatF64_small _ h]
    have h1 : (n.natAbs : Int) = -n := Int.ofNat_natAbs_of_nonpos (le_of_lt hn)
    have h2 : ((n.natAbs : Int) : Rat) = ((-n : Int) : Rat) := by rw [h1]
    rw [Int.cast_natCast, Int.cast_neg] at h2
    rw [h2, neg_neg]
  · rw [if_neg hn, roundNatF64_small _ h]
    have h1 : (n.natAbs : Int) = n := Int.natAbs_of_nonneg (le_of_not_lt hn)
    have h2 : ((n.natAbs : Int) : Rat) = (n : Rat) := by rw [h1]
    rw [Int.cast_natCast] at h2
    exact h2

theorem ratTrunc_intCast (n : Int) : ratTrunc ((n : Int) : Rat) = n := by
  unfold ratTrunc
  rw [Rat.num_intCast, Rat.den_intCast]
  exact_mod_cast Int.tdiv_one n

theorem retrieve_toYarnValue_small (k : ParamKind) (a : k.carrier)
    (h : argSmall k a = true) : retrieve k (toYarnValue k a) = some a := by
  cases k with
  | pBool => rfl
  | pNum => rfl
  | pStr => rfl
  | pValue => rfl
  | pInt w =>
    simp only [argSmall, decide_eq_true_eq] at h
    simp only [toYarnValue, retrieve]
    rw [f64OfInt_small a.val h, ratTrunc_intCast, dif_pos a.2]

theorem retrieveAll_toValues_small : ∀ {ps : List ParamKind} (args : ArgList ps),
    argsSmall args = true → retrieveAll ps (toValues args) = some args := by
  intro ps args
  induction args with
  | nil => intro _; rfl
  | cons a rest ih =>
    intro h
    simp only [argsSmall, Bool.and_eq_true] at h
    simp only [toValues, retrieveAll, retrieve_toYarnValue_small _ a h.1, ih h.2]

/-- The width of Rust's `u64`. -/
def u64Width : IntWidth := { signed := false, bits := 64 }

/-- `u64::MAX` as a native value. -/
def u64MaxVal : u64Width.carrier := ⟨2 ^ 64 - 1, by decide⟩

/-- The identity host function on `u64`. -/
def c5IdU64 : HostFn [ParamKind.pInt u64Width] (RetKind.rInt u64Width) :=
  fun args =>
    match args with
    | ArgList.cons n ArgList.nil => n

/-- The one-element argument tuple holding `u64::MAX`. -/
def u64MaxArgs : ArgList [ParamKind.pInt u64Width] :=
  @ArgList.cons (ParamKind.pInt u64Width) [] u64MaxVal ArgList.nil

/-- C5 counterexample: for the identity host function on `u64` invoked at
`u64::MAX`, the Value derived from the argument holds the rounded float
`2^64` (the magnitude exceeds 53 significant bits), whose retrieval back to
`u64` is out of range — the wrapper call fails while the direct invocation
returns `u64::MAX`, so the round trip does not hold for every tuple of
native arguments. -/
theorem C5_counterexample :
    wrapperCall c5IdU64 (toValues u64MaxArgs)
      ≠ some (retToYarnValue (RetKind.rInt u64Width) (c5IdU64 u64MaxArgs)) := by
  decide

/-- C5 (amended): the function-binding round trip holds for every accepted
host signature and every tuple of native arguments whose integer components
are exactly representable in the 64-bit float Value, i.e. fit in 53
significant bits; boolean, string, float and untyped-value arguments
round-trip unconditionally. (The restriction is forced: for wider integers
the derived Value is rounded and the wrapper call diverges from the direct
invocation, as the counterexample at `u64::MAX` shows.) -/
theorem C5_round_trip_representable {ps : List ParamKind} {r : RetKind}
    (f : HostFn ps r) (args : ArgList ps) (h : argsSmall args = true) :
    wrapperCall f (toValues args) = some (retToYarnValue r (f args)) := by
  unfold wrapperCall
  rw [retrieveAll_toValues_small args h]
  rfl

/-- The width of Rust's `i32`. -/
def i32Width : IntWidth := { signed := true, bits := 32 }

/-- A small `i32` value. -/
def i32Five : i32Width.carrier := ⟨5, by decide⟩

/-- The identity host function on `i32`. -/
def c5IdI32 : HostFn [ParamKind.pInt i32Width] (RetKind.rInt i32Width) :=
  fun args =>
    match args with
    | ArgList.cons n ArgList.nil => n

/-- The one-element argument tuple holding the small `i32` value. -/
def i32FiveArgs : ArgList [ParamKind.pInt i32Width] :=
  @ArgList.cons (ParamKind.pInt i32Width) [] i32Five ArgList.nil

theorem C5_round_trip_representable_witness :
    wrapperCall c5IdI32 (toValues i32FiveArgs)
      = some (retToYarnValue (RetKind.rInt i32Width) (c5IdI32 i32FiveArgs)) :=
  C5_round_trip_representable c5IdI32 i32FiveArgs (by decide)

end Yarn
